import Mathlib

/-!
Verification of the scoring-model core of the football-odds-analyzer
repository (`src/analyzer.py`) against its natural-language specification.

The Python functions are shallowly embedded over the reals:

* a score grid (a numpy `(K+1)×(K+1)` array) is modelled as a cell function
  `ℕ → ℕ → ℝ`; every consumer of a grid only reads indices `0 ≤ i, j ≤ K`,
  and all array-wide reductions (`np.sum`) are spelled out as finite sums
  over `Finset.range (K+1)`;
* `scipy.stats.poisson.pmf(k, μ)` is embedded by its defining formula
  `e^(−μ)·μ^k / k!`.  For `μ < 0` scipy returns NaN — it does NOT raise —
  so the grid builders are total; no theorem below inspects a cell value at
  a negative rate except to exhibit that a grid cell is produced there;
* Python scalar division raises `ZeroDivisionError` on a zero denominator,
  so `calculate_kelly_criterion` (pure scalar code) is embedded with
  `Except`; numpy array division does not raise, so the grid pipeline
  stays total;
* Python's builtin `sorted(key=..., reverse=True)` is a stable descending
  sort; it is embedded as a stable insertion sort (`sorted_desc`).
-/

noncomputable section

open Classical

/-- Model of `scipy.stats.poisson.pmf k mu`: `e^(−μ)·μ^k / k!`
(the value scipy computes for `μ ≥ 0`; for `μ < 0` scipy yields NaN without
raising, and no theorem below uses the cell values at negative rates). -/
def poisson_pmf (k : ℕ) (mu : ℝ) : ℝ :=
  Real.exp (-mu) * mu ^ k / (Nat.factorial k : ℝ)

/-- Total mass of a `(K+1)×(K+1)` score grid: `np.sum` over the array. -/
def gridSum (K : ℕ) (g : ℕ → ℕ → ℝ) : ℝ :=
  ∑ i ∈ Finset.range (K + 1), ∑ j ∈ Finset.range (K + 1), g i j

/-- `calculate_poisson_probabilities(home_expected_goals, away_expected_goals,
max_goals)` from `src/analyzer.py`: cell `(i, j)` of the returned
`(max_goals+1)²` DataFrame is `pmf(i, λ_h) · pmf(j, λ_a)`.  The grid is not
normalized in this mode.  `max_goals` only fixes the array shape, so it does
not appear in the cell formula; consumers sum over `Finset.range (K+1)`. -/
def calculate_poisson_probabilities
    (home_expected_goals away_expected_goals : ℝ) (_max_goals : ℕ) :
    ℕ → ℕ → ℝ :=
  fun i j => poisson_pmf i home_expected_goals * poisson_pmf j away_expected_goals

/-- Destination cell of one historical result in
`adjust_probabilities_with_history`: the four-branch `if/elif/elif/else`
that clamps goal counts above `max_goals` into the boundary row/column. -/
def score_cell (max_goals gols_casa gols_fora : ℕ) : ℕ × ℕ :=
  if gols_casa ≤ max_goals ∧ gols_fora ≤ max_goals then (gols_casa, gols_fora)
  else if gols_casa > max_goals ∧ gols_fora ≤ max_goals then (max_goals, gols_fora)
  else if gols_casa ≤ max_goals ∧ gols_fora > max_goals then (gols_casa, max_goals)
  else (max_goals, max_goals)

/-- The historical frequency grid `freq_historica` accumulated by the loop in
`adjust_probabilities_with_history`: each result increments its (clamped)
cell by 1. -/
def freq_historica (max_goals : ℕ) :
    List (ℕ × ℕ) → ℕ → ℕ → ℝ
  | [] => fun _ _ => 0
  | r :: rest => fun i j =>
      freq_historica max_goals rest i j +
        (if score_cell max_goals r.1 r.2 = (i, j) then 1 else 0)

/-- The local `prob_historica` of `adjust_probabilities_with_history`: the
frequency grid normalized by its total when that total is positive
(`if np.sum(freq_historica) > 0`), otherwise an all-zero grid. -/
def prob_historica (max_goals : ℕ) (historical_results : List (ℕ × ℕ)) :
    ℕ → ℕ → ℝ :=
  if 0 < gridSum max_goals (freq_historica max_goals historical_results) then
    fun i j => freq_historica max_goals historical_results i j /
      gridSum max_goals (freq_historica max_goals historical_results)
  else
    fun _ _ => 0

/-- The local `prob_ajustada` of `adjust_probabilities_with_history` before
its final normalization: `(1 − weight)·base + weight·historical`. -/
def prob_ajustada (prob_base : ℕ → ℕ → ℝ) (historical_results : List (ℕ × ℕ))
    (weight : ℝ) (max_goals : ℕ) : ℕ → ℕ → ℝ :=
  fun i j => (1 - weight) * prob_base i j +
    weight * prob_historica max_goals historical_results i j

/-- `adjust_probabilities_with_history(prob_base, historical_results, weight,
max_goals)` from `src/analyzer.py`: builds the historical frequency grid,
normalizes it when its total is positive (otherwise keeps a zero grid),
blends `(1−w)·base + w·historical`, then renormalizes by the blend's total
mass (`prob_ajustada / np.sum(prob_ajustada)`). -/
def adjust_probabilities_with_history
    (prob_base : ℕ → ℕ → ℝ) (historical_results : List (ℕ × ℕ))
    (weight : ℝ) (max_goals : ℕ) : ℕ → ℕ → ℝ :=
  fun i j => prob_ajustada prob_base historical_results weight max_goals i j /
    gridSum max_goals (prob_ajustada prob_base historical_results weight max_goals)

/-- Result of `calculate_market_probabilities`: the returned dictionary.
`vitoria_casa`, `empate`, `vitoria_fora` are the values at keys `"1"`,
`"X"`, `"2"`; `over L` / `under L` the values at `"Over L"` / `"Under L"`;
`ambas_sim` / `ambas_nao` the values at `"Ambas Marcam Sim"` / `"… Não"`. -/
structure MarketProbabilities where
  vitoria_casa : ℝ
  empate : ℝ
  vitoria_fora : ℝ
  over : ℝ → ℝ
  under : ℝ → ℝ
  ambas_sim : ℝ
  ambas_nao : ℝ

/-- `calculate_market_probabilities(matriz_prob)` from `src/analyzer.py`:
one pass over all cells `(i, j)` with `0 ≤ i, j ≤ max_gols` accumulating
home win where `i > j`, draw where `i == j`, away win otherwise (`i < j`),
`Over L` where `i + j > L`, both-teams-score where `i > 0 and j > 0`;
`Under L` and `Ambas Marcam Não` are derived as `1 −` their complements. -/
def calculate_market_probabilities (max_gols : ℕ) (g : ℕ → ℕ → ℝ) :
    MarketProbabilities :=
  { vitoria_casa :=
      ∑ i ∈ Finset.range (max_gols + 1), ∑ j ∈ Finset.range (max_gols + 1),
        if j < i then g i j else 0
    empate :=
      ∑ i ∈ Finset.range (max_gols + 1), ∑ j ∈ Finset.range (max_gols + 1),
        if i = j then g i j else 0
    vitoria_fora :=
      ∑ i ∈ Finset.range (max_gols + 1), ∑ j ∈ Finset.range (max_gols + 1),
        if i < j then g i j else 0
    over := fun limite =>
      ∑ i ∈ Finset.range (max_gols + 1), ∑ j ∈ Finset.range (max_gols + 1),
        if limite < ((i + j : ℕ) : ℝ) then g i j else 0
    under := fun limite =>
      1 - ∑ i ∈ Finset.range (max_gols + 1), ∑ j ∈ Finset.range (max_gols + 1),
        if limite < ((i + j : ℕ) : ℝ) then g i j else 0
    ambas_sim :=
      ∑ i ∈ Finset.range (max_gols + 1), ∑ j ∈ Finset.range (max_gols + 1),
        if 0 < i ∧ 0 < j then g i j else 0
    ambas_nao :=
      1 - ∑ i ∈ Finset.range (max_gols + 1), ∑ j ∈ Finset.range (max_gols + 1),
        if 0 < i ∧ 0 < j then g i j else 0 }

/-- The scoreline label `f"{i}-{j}"`. -/
def score_label (i j : ℕ) : String :=
  toString i ++ "-" ++ toString j

/-- The `placares` list built by `find_most_probable_scores`: row-major
(`i` ascending, then `j` ascending) flattening of the grid into
`(label, probability)` pairs. -/
def placares (K : ℕ) (g : ℕ → ℕ → ℝ) : List (String × ℝ) :=
  (List.range (K + 1)).flatMap fun i =>
    (List.range (K + 1)).map fun j => (score_label i j, g i j)

/-- One step of the stable descending sort: insert `x` before the first
element whose probability is `≤ x`'s (so earlier elements win ties). -/
def insert_desc (x : String × ℝ) : List (String × ℝ) → List (String × ℝ)
  | [] => [x]
  | y :: ys => if y.2 ≤ x.2 then x :: y :: ys else y :: insert_desc x ys

/-- Model of Python's builtin stable sort with
`key=lambda x: x[1], reverse=True` used in `find_most_probable_scores`:
descending by probability, equal probabilities keep their original order. -/
def sorted_desc : List (String × ℝ) → List (String × ℝ)
  | [] => []
  | x :: xs => insert_desc x (sorted_desc xs)

/-- `find_most_probable_scores(matriz_prob, n)` from `src/analyzer.py`:
flatten row-major, sort by probability descending (stable), take `n`. -/
def find_most_probable_scores (K : ℕ) (g : ℕ → ℕ → ℝ) (n : ℕ) :
    List (String × ℝ) :=
  (sorted_desc (placares K g)).take n

/-- `calculate_expected_value(probabilidade, odd)` from `src/analyzer.py`. -/
def calculate_expected_value (probabilidade odd : ℝ) : ℝ :=
  probabilidade * odd

/-- The `tau(x, y, lambda_x, lambda_y, rho)` correction of
`dixon_coles_adjustment` in `src/analyzer.py`. -/
def tau (x y : ℕ) (lambda_x lambda_y rho : ℝ) : ℝ :=
  if x = 0 ∧ y = 0 then 1 - lambda_x * lambda_y * rho
  else if x = 0 ∧ y = 1 then 1 + lambda_x * rho
  else if x = 1 ∧ y = 0 then 1 + lambda_y * rho
  else if x = 1 ∧ y = 1 then 1 - rho
  else 1

/-- The `dc_prob(x, y)` closure returned by `dixon_coles_adjustment`:
independent Poisson product times the `tau` correction. -/
def dc_prob (home_expected_goals away_expected_goals rho : ℝ) (x y : ℕ) : ℝ :=
  poisson_pmf x home_expected_goals * poisson_pmf y away_expected_goals *
    tau x y home_expected_goals away_expected_goals rho

/-- `calculate_dixon_coles_matrix(home_expected_goals, away_expected_goals,
max_goals, rho)` from `src/analyzer.py`: fill the grid with `dc_prob` and
normalize by the grid's total (`probabilidades / np.sum(probabilidades)`;
numpy division does not raise, so the builder is total). -/
def calculate_dixon_coles_matrix
    (home_expected_goals away_expected_goals : ℝ) (max_goals : ℕ) (rho : ℝ) :
    ℕ → ℕ → ℝ :=
  fun i j =>
    dc_prob home_expected_goals away_expected_goals rho i j /
      gridSum max_goals (fun a b => dc_prob home_expected_goals away_expected_goals rho a b)

/-- Runtime errors a Python scalar computation can raise. -/
inductive PyError where
  | zeroDivisionError

/-- `calculate_kelly_criterion(probability, odd, fraction)` from
`src/analyzer.py`.  The function performs no input validation; the only
failure modes are Python `ZeroDivisionError`s from `1 / odd` (the unused
`implied_prob`) at `odd = 0` and from the edge formula's division by
`odd - 1` at `odd = 1`. -/
def calculate_kelly_criterion (probability odd fraction : ℝ) :
    Except PyError ℝ :=
  if odd = 0 then .error .zeroDivisionError
  else if odd - 1 = 0 then .error .zeroDivisionError
  else
    let edge := (probability * odd - 1) / (odd - 1)
    if edge ≤ 0 then .ok 0
    else .ok (edge / (odd - 1) * fraction)

lemma poisson_pmf_nonneg (k : ℕ) {mu : ℝ} (h : 0 ≤ mu) : 0 ≤ poisson_pmf k mu := by
  unfold poisson_pmf
  exact div_nonneg (mul_nonneg (Real.exp_pos _).le (pow_nonneg h k)) (Nat.cast_nonneg _)

lemma poisson_pmf_zero (mu : ℝ) : poisson_pmf 0 mu = Real.exp (-mu) := by
  simp [poisson_pmf]

lemma poisson_pmf_one (mu : ℝ) : poisson_pmf 1 mu = Real.exp (-mu) * mu := by
  simp [poisson_pmf, Nat.factorial]

lemma sum_poisson_pmf_le_one {mu : ℝ} (h : 0 ≤ mu) (n : ℕ) :
    ∑ k ∈ Finset.range n, poisson_pmf k mu ≤ 1 := by
  have h1 : ∑ k ∈ Finset.range n, poisson_pmf k mu
      = Real.exp (-mu) * ∑ k ∈ Finset.range n, mu ^ k / (Nat.factorial k : ℝ) := by
    rw [Finset.mul_sum]
    refine Finset.sum_congr rfl fun k _ => ?_
    unfold poisson_pmf
    ring
  rw [h1]
  calc Real.exp (-mu) * ∑ k ∈ Finset.range n, mu ^ k / (Nat.factorial k : ℝ)
      ≤ Real.exp (-mu) * Real.exp mu :=
        mul_le_mul_of_nonneg_left (Real.sum_le_exp_of_nonneg h n) (Real.exp_pos _).le
    _ = 1 := by rw [← Real.exp_add]; simp

lemma tau_other {x y : ℕ} (h : 2 ≤ x ∨ 2 ≤ y) (lx ly rho : ℝ) :
    tau x y lx ly rho = 1 := by
  unfold tau
  rcases h with h | h <;> split_ifs with h1 h2 h3 h4 <;> first | rfl | omega

lemma dc_prob_nonneg_tail {lh la rho : ℝ} (hlh : 0 ≤ lh) (hla : 0 ≤ la)
    {x y : ℕ} (h : 2 ≤ x ∨ 2 ≤ y) : 0 ≤ dc_prob lh la rho x y := by
  unfold dc_prob
  rw [tau_other h, mul_one]
  exact mul_nonneg (poisson_pmf_nonneg x hlh) (poisson_pmf_nonneg y hla)

lemma sum_range_peel_two (m : ℕ) (f : ℕ → ℝ) :
    ∑ i ∈ Finset.range (m + 2), f i
      = f 0 + f 1 + ∑ i ∈ Finset.range m, f (i + 1 + 1) := by
  rw [Finset.sum_range_succ', Finset.sum_range_succ']
  simp only [Nat.zero_add]
  ring

lemma gridSum_poisson (lh la : ℝ) (K : ℕ) :
    gridSum K (calculate_poisson_probabilities lh la K)
      = (∑ i ∈ Finset.range (K + 1), poisson_pmf i lh) *
        (∑ j ∈ Finset.range (K + 1), poisson_pmf j la) := by
  unfold gridSum calculate_poisson_probabilities
  rw [Finset.sum_mul_sum]

lemma tau_zero_zero (lx ly rho : ℝ) : tau 0 0 lx ly rho = 1 - lx * ly * rho := by
  simp [tau]

lemma tau_zero_one (lx ly rho : ℝ) : tau 0 1 lx ly rho = 1 + lx * rho := by
  simp [tau]

lemma tau_one_zero (lx ly rho : ℝ) : tau 1 0 lx ly rho = 1 + ly * rho := by
  simp [tau]

lemma tau_one_one (lx ly rho : ℝ) : tau 1 1 lx ly rho = 1 - rho := by
  simp [tau]

/-- The unnormalized Dixon-Coles grid has strictly positive total mass for
non-negative rates and `ρ ≤ 0` (the `τ` deviations on the four low-score
cells cancel in pairs against the Poisson mass there). -/
lemma dc_gridSum_pos {lh la rho : ℝ} (hlh : 0 ≤ lh) (hla : 0 ≤ la)
    (hrho : rho ≤ 0) (K : ℕ) :
    0 < gridSum K (fun a b => dc_prob lh la rho a b) := by
  have he1 : 0 < Real.exp (-lh) := Real.exp_pos _
  have he2 : 0 < Real.exp (-la) := Real.exp_pos _
  cases K with
  | zero =>
    have h00 : gridSum 0 (fun a b => dc_prob lh la rho a b) = dc_prob lh la rho 0 0 := by
      unfold gridSum
      simp
    rw [h00]
    unfold dc_prob
    rw [tau_zero_zero, poisson_pmf_zero, poisson_pmf_zero]
    nlinarith [mul_nonneg (mul_nonneg hlh hla) (neg_nonneg.mpr hrho), mul_pos he1 he2]
  | succ m =>
    have hrow0 : dc_prob lh la rho 0 0 + dc_prob lh la rho 0 1
        = Real.exp (-lh) * Real.exp (-la) * (1 + la) := by
      unfold dc_prob
      rw [tau_zero_zero, tau_zero_one, poisson_pmf_zero, poisson_pmf_zero, poisson_pmf_one]
      ring
    have hrow1 : dc_prob lh la rho 1 0 + dc_prob lh la rho 1 1
        = Real.exp (-lh) * lh * (Real.exp (-la) * (1 + la)) := by
      unfold dc_prob
      rw [tau_one_zero, tau_one_one, poisson_pmf_zero, poisson_pmf_one, poisson_pmf_one]
      ring
    have hS : gridSum (m + 1) (fun a b => dc_prob lh la rho a b)
        = (dc_prob lh la rho 0 0 + dc_prob lh la rho 0 1
            + ∑ j ∈ Finset.range m, dc_prob lh la rho 0 (j + 1 + 1))
          + (dc_prob lh la rho 1 0 + dc_prob lh la rho 1 1
            + ∑ j ∈ Finset.range m, dc_prob lh la rho 1 (j + 1 + 1))
          + ∑ i ∈ Finset.range m, ∑ j ∈ Finset.range (m + 2), dc_prob lh la rho (i + 1 + 1) j := by
      unfold gridSum
      rw [sum_range_peel_two m
        (fun i => ∑ j ∈ Finset.range (m + 2), dc_prob lh la rho i j)]
      rw [sum_range_peel_two m (fun j => dc_prob lh la rho 0 j)]
      rw [sum_range_peel_two m (fun j => dc_prob lh la rho 1 j)]
    have ht0 : 0 ≤ ∑ j ∈ Finset.range m, dc_prob lh la rho 0 (j + 1 + 1) :=
      Finset.sum_nonneg fun j _ => dc_prob_nonneg_tail hlh hla (Or.inr (by omega))
    have ht1 : 0 ≤ ∑ j ∈ Finset.range m, dc_prob lh la rho 1 (j + 1 + 1) :=
      Finset.sum_nonneg fun j _ => dc_prob_nonneg_tail hlh hla (Or.inr (by omega))
    have ht2 : 0 ≤ ∑ i ∈ Finset.range m, ∑ j ∈ Finset.range (m + 2),
        dc_prob lh la rho (i + 1 + 1) j :=
      Finset.sum_nonneg fun i _ => Finset.sum_nonneg fun j _ =>
        dc_prob_nonneg_tail hlh hla (Or.inl (by omega))
    have hpos0 : 0 < Real.exp (-lh) * Real.exp (-la) * (1 + la) :=
      mul_pos (mul_pos he1 he2) (by linarith)
    have hpos1 : 0 ≤ Real.exp (-lh) * lh * (Real.exp (-la) * (1 + la)) :=
      mul_nonneg (mul_nonneg he1.le hlh) (mul_nonneg he2.le (by linarith))
    rw [hS, hrow0, hrow1]
    linarith

/-- C3: for all rates `λ_h, λ_a ≥ 0`, every `K ≥ 0`, and a valid
correlation `ρ ≤ 0`: every cell of the Poisson-mode grid is `≥ 0` and its
total mass is `≤ 1` (this mode never renormalizes), while the
Dixon-Coles-mode grid sums exactly to `1` after its final normalization. -/
theorem poisson_grid_bounds_and_dc_normalized
    (lh la rho : ℝ) (K : ℕ) (hlh : 0 ≤ lh) (hla : 0 ≤ la) (hrho : rho ≤ 0) :
    (∀ i j : ℕ, 0 ≤ calculate_poisson_probabilities lh la K i j)
    ∧ gridSum K (calculate_poisson_probabilities lh la K) ≤ 1
    ∧ gridSum K (calculate_dixon_coles_matrix lh la K rho) = 1 := by
  refine ⟨?_, ?_, ?_⟩
  · intro i j
    exact mul_nonneg (poisson_pmf_nonneg i hlh) (poisson_pmf_nonneg j hla)
  · rw [gridSum_poisson]
    exact mul_le_one₀ (sum_poisson_pmf_le_one hlh (K + 1))
      (Finset.sum_nonneg fun j _ => poisson_pmf_nonneg j hla)
      (sum_poisson_pmf_le_one hla (K + 1))
  · have hS := dc_gridSum_pos hlh hla hrho K
    set S := gridSum K (fun a b => dc_prob lh la rho a b) with hSdef
    calc gridSum K (calculate_dixon_coles_matrix lh la K rho)
        = (∑ i ∈ Finset.range (K + 1), ∑ j ∈ Finset.range (K + 1),
            dc_prob lh la rho i j) / S := by
          unfold gridSum calculate_dixon_coles_matrix
          rw [← hSdef]
          simp only [← Finset.sum_div]
      _ = S / S := by rw [hSdef]; rfl
      _ = 1 := div_self (ne_of_gt hS)

/-- Witness for C3: instantiated at `λ_h = 1.5`, `λ_a = 1`, `ρ = −0.1`,
`K = 5`. -/
theorem poisson_grid_bounds_and_dc_normalized_witness :
    (0 : ℝ) ≤ 1.5 ∧
      ((∀ i j : ℕ, 0 ≤ calculate_poisson_probabilities 1.5 1 5 i j)
      ∧ gridSum 5 (calculate_poisson_probabilities 1.5 1 5) ≤ 1
      ∧ gridSum 5 (calculate_dixon_coles_matrix 1.5 1 5 (-0.1)) = 1) :=
  ⟨by norm_num,
   poisson_grid_bounds_and_dc_normalized 1.5 1 (-0.1) 5 (by norm_num)
     (by norm_num) (by norm_num)⟩

/-- C10: with `ρ = 0` every `τ` factor is `1`, so the Dixon-Coles matrix is
exactly the Poisson-mode grid divided cellwise by its own total mass — the
two builders differ only by the final normalization. -/
theorem dixon_coles_rho_zero_eq_normalized_poisson :
    ∀ (lh la : ℝ) (K i j : ℕ),
      calculate_dixon_coles_matrix lh la K 0 i j =
        calculate_poisson_probabilities lh la K i j /
          gridSum K (calculate_poisson_probabilities lh la K) := by
  intro lh la K i j
  have hdc : ∀ x y : ℕ, dc_prob lh la 0 x y
      = poisson_pmf x lh * poisson_pmf y la := by
    intro x y
    unfold dc_prob tau
    split_ifs <;> ring
  have hfun : (fun a b => dc_prob lh la 0 a b)
      = calculate_poisson_probabilities lh la K := by
    funext a b
    exact hdc a b
  unfold calculate_dixon_coles_matrix
  rw [hdc, hfun]
  rfl

lemma score_cell_le (K gc gf : ℕ) :
    (score_cell K gc gf).1 ≤ K ∧ (score_cell K gc gf).2 ≤ K := by
  unfold score_cell
  split_ifs with h1 h2 h3 <;> constructor <;> simp <;> omega

lemma sum_indicator_pair {K : ℕ} (c : ℕ × ℕ) (ha : c.1 ≤ K) (hb : c.2 ≤ K) :
    ∑ i ∈ Finset.range (K + 1), ∑ j ∈ Finset.range (K + 1),
      (if c = (i, j) then (1 : ℝ) else 0) = 1 := by
  obtain ⟨a, b⟩ := c
  have ha2 : a ≤ K := ha
  have hb2 : b ≤ K := hb
  have hinner : ∀ i : ℕ,
      ∑ j ∈ Finset.range (K + 1), (if (a, b) = (i, j) then (1 : ℝ) else 0)
        = if a = i then 1 else 0 := by
    intro i
    by_cases hai : a = i
    · subst hai
      have hb' : b ∈ Finset.range (K + 1) := Finset.mem_range.mpr (by omega)
      simp only [Prod.mk.injEq, true_and]
      rw [Finset.sum_ite_eq]
      rw [if_pos hb']
      simp
    · simp [Prod.mk.injEq, hai]
  rw [Finset.sum_congr rfl fun i _ => hinner i, Finset.sum_ite_eq]
  exact if_pos (Finset.mem_range.mpr (by omega))

lemma gridSum_freq (K : ℕ) (hr : List (ℕ × ℕ)) :
    gridSum K (freq_historica K hr) = (hr.length : ℝ) := by
  induction hr with
  | nil => simp [gridSum, freq_historica]
  | cons r rest ih =>
    have hsplit : gridSum K (freq_historica K (r :: rest))
        = gridSum K (freq_historica K rest)
          + ∑ i ∈ Finset.range (K + 1), ∑ j ∈ Finset.range (K + 1),
              (if score_cell K r.1 r.2 = (i, j) then (1 : ℝ) else 0) := by
      unfold gridSum
      simp only [← Finset.sum_add_distrib]
      rfl
    obtain ⟨hc1, hc2⟩ := score_cell_le K r.1 r.2
    rw [hsplit, ih, sum_indicator_pair (score_cell K r.1 r.2) hc1 hc2]
    push_cast [List.length_cons]
    ring

lemma prob_historica_nil (K : ℕ) :
    prob_historica K [] = fun _ _ => (0 : ℝ) := by
  unfold prob_historica
  have h : gridSum K (freq_historica K []) = 0 := by
    simp [gridSum, freq_historica]
  rw [h]
  simp

/-- C4 counterexample: a base grid of total mass `1/2` (single cell, `K = 0`)
blended with weight `0` is NOT returned unchanged — the final normalization
rescales it to mass 1, so the cell becomes `1`, not `1/2`. -/
theorem blend_weight_zero_not_unchanged_on_submass_grid :
    ¬ (adjust_probabilities_with_history (fun _ _ => (1/2 : ℝ)) [] 0 0 0 0
        = (fun _ _ => (1/2 : ℝ)) 0 0) := by
  have hpaf : prob_ajustada (fun _ _ => (1/2 : ℝ)) [] 0 0
      = fun _ _ => (1/2 : ℝ) := by
    funext a b
    unfold prob_ajustada
    rw [prob_historica_nil]
    norm_num
  have hL : adjust_probabilities_with_history (fun _ _ => (1/2 : ℝ)) [] 0 0 0 0 = 1 := by
    unfold adjust_probabilities_with_history
    rw [hpaf]
    simp [gridSum]
  rw [hL]
  norm_num

/-- C4 amended: with weight `0` the blender returns, for EVERY base grid
and history list, the base grid divided cellwise by its own total mass —
hence unchanged exactly when that mass is `1` (base grids of mass `< 1`,
as produced by Poisson mode, are rescaled); with weight `1` and a
non-empty history it returns exactly the empirical frequency grid
normalized to sum `1`. -/
theorem blend_weight_zero_and_weight_one
    (base : ℕ → ℕ → ℝ) (hr : List (ℕ × ℕ)) (K : ℕ) :
    (∀ i j : ℕ, adjust_probabilities_with_history base hr 0 K i j
        = base i j / gridSum K base)
    ∧ (gridSum K base = 1 →
      ∀ i j : ℕ, adjust_probabilities_with_history base hr 0 K i j = base i j)
    ∧ (hr ≠ [] →
      ∀ i j : ℕ, adjust_probabilities_with_history base hr 1 K i j
        = freq_historica K hr i j / (hr.length : ℝ)) := by
  have hpaf0 : prob_ajustada base hr 0 K = base := by
    funext a b
    unfold prob_ajustada
    ring
  have hgen : ∀ i j : ℕ, adjust_probabilities_with_history base hr 0 K i j
      = base i j / gridSum K base := by
    intro i j
    unfold adjust_probabilities_with_history
    rw [hpaf0]
  refine ⟨hgen, ?_, ?_⟩
  · intro hmass i j
    rw [hgen i j, hmass, div_one]
  · intro hne i j
    have hlen : 0 < (hr.length : ℝ) := by
      have := List.length_pos.mpr hne
      exact_mod_cast this
    have hfs := gridSum_freq K hr
    have hph : prob_historica K hr
        = fun a b => freq_historica K hr a b / (hr.length : ℝ) := by
      unfold prob_historica
      rw [hfs, if_pos hlen]
    have hpaf : prob_ajustada base hr 1 K
        = fun a b => freq_historica K hr a b / (hr.length : ℝ) := by
      funext a b
      unfold prob_ajustada
      rw [hph]
      ring
    have hsum : gridSum K (fun a b => freq_historica K hr a b / (hr.length : ℝ)) = 1 := by
      unfold gridSum
      simp only [← Finset.sum_div]
      unfold gridSum at hfs
      rw [hfs]
      exact div_self (ne_of_gt hlen)
    unfold adjust_probabilities_with_history
    rw [hpaf, hsum, div_one]

/-- Witness for C4's amended statement: the general weight-0
renormalization on a sub-mass (mass `1/2`) single-cell base grid, the
unchanged case on a mass-1 base grid, and the one-element history
`[(0,0)]` with weight `1`. -/
theorem blend_weight_zero_and_weight_one_witness :
    (∀ i j : ℕ, adjust_probabilities_with_history (fun _ _ => (1/2 : ℝ)) [(0, 0)] 0 0 i j
        = (fun _ _ => (1/2 : ℝ)) i j / gridSum 0 (fun _ _ => (1/2 : ℝ)))
    ∧ (gridSum 0 (fun _ _ => (1 : ℝ)) = 1
      ∧ ∀ i j : ℕ, adjust_probabilities_with_history (fun _ _ => (1 : ℝ)) [(0, 0)] 0 0 i j
          = (fun _ _ => (1 : ℝ)) i j)
    ∧ (([((0 : ℕ), (0 : ℕ))] : List (ℕ × ℕ)) ≠ []
      ∧ ∀ i j : ℕ, adjust_probabilities_with_history (fun _ _ => (1 : ℝ)) [(0, 0)] 1 0 i j
          = freq_historica 0 [(0, 0)] i j
              / (([((0 : ℕ), (0 : ℕ))] : List (ℕ × ℕ)).length : ℝ)) := by
  have hmass : gridSum 0 (fun _ _ => (1 : ℝ)) = 1 := by simp [gridSum]
  have hne : ([((0 : ℕ), (0 : ℕ))] : List (ℕ × ℕ)) ≠ [] := by simp
  exact ⟨(blend_weight_zero_and_weight_one (fun _ _ => (1/2 : ℝ)) [(0, 0)] 0).1,
         ⟨hmass, (blend_weight_zero_and_weight_one (fun _ _ => (1 : ℝ)) [(0, 0)] 0).2.1 hmass⟩,
         ⟨hne, (blend_weight_zero_and_weight_one (fun _ _ => (1 : ℝ)) [(0, 0)] 0).2.2 hne⟩⟩

/-- C5 counterexample: with an empty history and weight `1`, the blended
grid is all zero and the final normalization divides `0 / 0` (a NaN grid in
the program, `0` in this real-valued model) — the base grid divided by its
own mass (`1` here) is not returned. -/
theorem blend_empty_history_weight_one_not_base :
    ¬ (adjust_probabilities_with_history (fun _ _ => (1 : ℝ)) [] 1 0 0 0
        = (fun _ _ => (1 : ℝ)) 0 0 / gridSum 0 (fun _ _ => (1 : ℝ))) := by
  have hpaf : prob_ajustada (fun _ _ => (1 : ℝ)) [] 1 0 = fun _ _ => (0 : ℝ) := by
    funext a b
    unfold prob_ajustada
    rw [prob_historica_nil]
    norm_num
  have hL : adjust_probabilities_with_history (fun _ _ => (1 : ℝ)) [] 1 0 0 0 = 0 := by
    unfold adjust_probabilities_with_history
    rw [hpaf]
    simp [gridSum]
  have hR : (fun _ _ => (1 : ℝ)) 0 0 / gridSum 0 (fun _ _ => (1 : ℝ)) = 1 := by
    simp [gridSum]
  rw [hL, hR]
  norm_num

/-- C5 amended: for every weight `w ∈ [0, 1)` and an empty history the
blender does not fail and returns the base grid renormalized by its own
total mass; at `w = 1` the normalization degenerates to `0 / 0` instead. -/
theorem blend_empty_history_returns_renormalized_base
    (base : ℕ → ℕ → ℝ) (K : ℕ) (w : ℝ) (hw0 : 0 ≤ w) (hw1 : w < 1) :
    ∀ i j : ℕ, adjust_probabilities_with_history base [] w K i j
      = base i j / gridSum K base := by
  intro i j
  have hpaf : prob_ajustada base [] w K = fun a b => (1 - w) * base a b := by
    funext a b
    unfold prob_ajustada
    rw [prob_historica_nil]
    ring
  have hsum : gridSum K (fun a b => (1 - w) * base a b) = (1 - w) * gridSum K base := by
    unfold gridSum
    simp only [← Finset.mul_sum]
  unfold adjust_probabilities_with_history
  rw [hpaf, hsum]
  exact mul_div_mul_left (base i j) (gridSum K base) (by linarith)

/-- Witness for C5's amended statement: single-cell base of mass `2`,
weight `1/2`. -/
theorem blend_empty_history_returns_renormalized_base_witness :
    ((0 : ℝ) ≤ 1/2 ∧ (1/2 : ℝ) < 1)
    ∧ adjust_probabilities_with_history (fun _ _ => (2 : ℝ)) [] (1/2) 0 0 0
        = (fun _ _ => (2 : ℝ)) 0 0 / gridSum 0 (fun _ _ => (2 : ℝ)) :=
  ⟨⟨by norm_num, by norm_num⟩,
   blend_empty_history_returns_renormalized_base (fun _ _ => (2 : ℝ)) 0 (1/2)
     (by norm_num) (by norm_num) 0 0⟩

/-- C6: the Market Aggregator's single pass sends each cell `(i, j)` to
exactly one of the `"1"` (`i > j`), `"X"` (`i == j`), `"2"` (`i < j`)
buckets, so those three probabilities sum to the grid's total mass (which
may be `< 1` for an unnormalized Poisson-mode grid). -/
theorem market_1x2_sums_to_grid_mass (K : ℕ) (g : ℕ → ℕ → ℝ) :
    (calculate_market_probabilities K g).vitoria_casa
      + (calculate_market_probabilities K g).empate
      + (calculate_market_probabilities K g).vitoria_fora
      = gridSum K g := by
  unfold calculate_market_probabilities gridSum
  dsimp only
  rw [← Finset.sum_add_distrib, ← Finset.sum_add_distrib]
  refine Finset.sum_congr rfl fun i _ => ?_
  rw [← Finset.sum_add_distrib, ← Finset.sum_add_distrib]
  refine Finset.sum_congr rfl fun j _ => ?_
  rcases Nat.lt_trichotomy j i with h | h | h
  · rw [if_pos h, if_neg (by omega), if_neg (by omega)]
    ring
  · rw [if_neg (by omega), if_pos (by omega), if_neg (by omega)]
    ring
  · rw [if_neg (by omega), if_neg (by omega), if_pos h]
    ring

lemma placares_length (K : ℕ) (g : ℕ → ℕ → ℝ) :
    (placares K g).length = (K + 1) * (K + 1) := by
  unfold placares
  rw [List.length_flatMap]
  simp [Function.comp_def]

lemma insert_desc_length (x : String × ℝ) (l : List (String × ℝ)) :
    (insert_desc x l).length = l.length + 1 := by
  induction l with
  | nil => rfl
  | cons y ys ih =>
    unfold insert_desc
    split_ifs <;> simp [List.length_cons, ih]

lemma sorted_desc_length (l : List (String × ℝ)) :
    (sorted_desc l).length = l.length := by
  induction l with
  | nil => rfl
  | cons x xs ih =>
    unfold sorted_desc
    rw [insert_desc_length, ih, List.length_cons]

lemma mem_insert_desc {z x : String × ℝ} {l : List (String × ℝ)} :
    z ∈ insert_desc x l ↔ z = x ∨ z ∈ l := by
  induction l with
  | nil => simp [insert_desc]
  | cons y ys ih =>
    unfold insert_desc
    split_ifs <;> simp [ih] <;> tauto

lemma insert_desc_pairwise {x : String × ℝ} {l : List (String × ℝ)}
    (h : l.Pairwise (fun a b => b.2 ≤ a.2)) :
    (insert_desc x l).Pairwise (fun a b => b.2 ≤ a.2) := by
  induction l with
  | nil => simp [insert_desc]
  | cons y ys ih =>
    rw [List.pairwise_cons] at h
    obtain ⟨hy, hys⟩ := h
    unfold insert_desc
    split_ifs with hc
    · refine List.Pairwise.cons ?_ (List.Pairwise.cons hy hys)
      intro z hz
      rcases List.mem_cons.mp hz with rfl | hz'
      · exact hc
      · exact le_trans (hy z hz') hc
    · refine List.Pairwise.cons ?_ (ih hys)
      intro z hz
      rcases mem_insert_desc.mp hz with rfl | hz'
      · exact le_of_lt (not_le.mp hc)
      · exact hy z hz'

lemma sorted_desc_pairwise (l : List (String × ℝ)) :
    (sorted_desc l).Pairwise (fun a b => b.2 ≤ a.2) := by
  induction l with
  | nil => simp [sorted_desc]
  | cons x xs ih =>
    unfold sorted_desc
    exact insert_desc_pairwise ih

lemma filter_insert_desc_eq {v : ℝ} {x : String × ℝ} (hx : x.2 = v)
    (l : List (String × ℝ)) :
    (insert_desc x l).filter (fun p => decide (p.2 = v))
      = x :: l.filter (fun p => decide (p.2 = v)) := by
  induction l with
  | nil => simp [insert_desc, List.filter, hx]
  | cons y ys ih =>
    unfold insert_desc
    split_ifs with hc
    · simp [List.filter_cons, hx]
    · have hyv : ¬ (y.2 = v) := by
        intro h
        have hlt : x.2 < y.2 := not_le.mp hc
        rw [h, ← hx] at hlt
        exact lt_irrefl _ (hlt.trans_le (le_of_eq (hx.trans hx.symm)))
      simp [List.filter_cons, hyv, ih]

lemma filter_insert_desc_ne {v : ℝ} {x : String × ℝ} (hx : ¬ x.2 = v)
    (l : List (String × ℝ)) :
    (insert_desc x l).filter (fun p => decide (p.2 = v))
      = l.filter (fun p => decide (p.2 = v)) := by
  induction l with
  | nil => simp [insert_desc, List.filter, hx]
  | cons y ys ih =>
    unfold insert_desc
    split_ifs with hc
    · simp [List.filter_cons, hx]
    · by_cases hy : y.2 = v <;> simp [List.filter_cons, hy, ih]

/-- Stability of the model of Python's stable sort: for every probability
value, the sorted list restricted to that value is exactly the original
(row-major) list restricted to it — ties keep traversal order. -/
lemma filter_sorted_desc (v : ℝ) (l : List (String × ℝ)) :
    (sorted_desc l).filter (fun p => decide (p.2 = v))
      = l.filter (fun p => decide (p.2 = v)) := by
  induction l with
  | nil => rfl
  | cons x xs ih =>
    unfold sorted_desc
    by_cases hx : x.2 = v
    · rw [filter_insert_desc_eq hx, ih]
      simp [List.filter_cons, hx]
    · rw [filter_insert_desc_ne hx, ih]
      simp [List.filter_cons, hx]

/-- C7: the Score Ranker returns `min(n, (K+1)²)` pairs, sorted
non-increasing by probability; ties keep row-major traversal order (for
every probability value the sorted flattening restricted to that value is
the row-major flattening restricted to it); and when `n` exceeds the cell
count it returns all cells without error. -/
theorem find_most_probable_scores_spec :
    ∀ (K : ℕ) (g : ℕ → ℕ → ℝ) (n : ℕ),
      (find_most_probable_scores K g n).length = min n ((K + 1) ^ 2)
      ∧ (find_most_probable_scores K g n).Pairwise (fun a b => b.2 ≤ a.2)
      ∧ (∀ v : ℝ, (sorted_desc (placares K g)).filter (fun p => decide (p.2 = v))
            = (placares K g).filter (fun p => decide (p.2 = v)))
      ∧ ((K + 1) ^ 2 ≤ n →
          find_most_probable_scores K g n = sorted_desc (placares K g)) := by
  intro K g n
  have hslen : (sorted_desc (placares K g)).length = (K + 1) * (K + 1) := by
    rw [sorted_desc_length, placares_length]
  refine ⟨?_, ?_, fun v => filter_sorted_desc v _, ?_⟩
  · unfold find_most_probable_scores
    rw [List.length_take, hslen, sq]
  · exact (sorted_desc_pairwise _).sublist (List.take_sublist n _)
  · intro hn
    unfold find_most_probable_scores
    apply List.take_of_length_le
    rw [hslen, ← sq]
    exact hn

/-- Witness for C7: instantiated at `K = 0`, the constant-1 one-cell grid,
`n = 1` (which also covers the `n ≥ (K+1)²` branch). -/
theorem find_most_probable_scores_spec_witness :
    ((0 + 1) ^ 2 ≤ 1
      ∧ find_most_probable_scores 0 (fun _ _ => (1 : ℝ)) 1
          = sorted_desc (placares 0 (fun _ _ => (1 : ℝ))))
    ∧ (find_most_probable_scores 0 (fun _ _ => (1 : ℝ)) 1).length
        = min 1 ((0 + 1) ^ 2) :=
  ⟨⟨by norm_num,
    (find_most_probable_scores_spec 0 (fun _ _ => (1 : ℝ)) 1).2.2.2 (by norm_num)⟩,
   (find_most_probable_scores_spec 0 (fun _ _ => (1 : ℝ)) 1).1⟩

/-- C1: for every probability `p ∈ [0,1]`, decimal odd `o > 1` and fraction
multiplier in `(0,1]`, the Kelly computation returns `0` when the edge
`(p·o − 1)/(o − 1)` is `≤ 0` and `edge/(o − 1) · fraction` otherwise; in
particular `p = 0.6, o = 2` gives full Kelly `0.2` and `0.1` at fraction
`0.5`, and `p = 0.3, o = 2` gives `0` regardless of the fraction. -/
theorem kelly_criterion_formula :
    (∀ p o f : ℝ, 0 ≤ p → p ≤ 1 → 1 < o → 0 < f → f ≤ 1 →
      calculate_kelly_criterion p o f =
        .ok (if (p * o - 1) / (o - 1) ≤ 0 then 0
             else (p * o - 1) / (o - 1) / (o - 1) * f))
    ∧ calculate_kelly_criterion 0.6 2 1 = .ok 0.2
    ∧ calculate_kelly_criterion 0.6 2 0.5 = .ok 0.1
    ∧ ∀ f : ℝ, calculate_kelly_criterion 0.3 2 f = .ok 0 := by
  refine ⟨?_, ?_, ?_, ?_⟩
  · intro p o f hp hp1 ho hf hf1
    have h0 : o ≠ 0 := by intro h; rw [h] at ho; linarith
    have h1 : o - 1 ≠ 0 := by intro h; linarith
    by_cases hc : (p * o - 1) / (o - 1) ≤ 0 <;>
      simp [calculate_kelly_criterion, h0, h1, hc]
  · have hc : ¬ ((0.6 : ℝ) * 2 - 1) / (2 - 1) ≤ 0 := by norm_num
    simp [calculate_kelly_criterion, hc]
    norm_num
  · have hc : ¬ ((0.6 : ℝ) * 2 - 1) / (2 - 1) ≤ 0 := by norm_num
    simp [calculate_kelly_criterion, hc]
    norm_num
  · intro f
    have hc : ((0.3 : ℝ) * 2 - 1) / (2 - 1) ≤ 0 := by norm_num
    norm_num [calculate_kelly_criterion, hc]

/-- Witness for C1: the general formula instantiated at `p = 0.7`,
`o = 2`, `f = 1`. -/
theorem kelly_criterion_formula_witness :
    (0 : ℝ) ≤ 0.7 ∧
      calculate_kelly_criterion 0.7 2 1 =
        .ok (if ((0.7 : ℝ) * 2 - 1) / (2 - 1) ≤ 0 then 0
             else ((0.7 : ℝ) * 2 - 1) / (2 - 1) / (2 - 1) * 1) :=
  ⟨by norm_num,
   kelly_criterion_formula.1 0.7 2 1 (by norm_num) (by norm_num) (by norm_num)
     (by norm_num) (by norm_num)⟩

/-- C2 counterexample: the odd `0.5 ≤ 1` passed to the Kelly computation
does not fail at all — the code performs no validation and returns the
number `-3` (edge `1.5 > 0` divided by the negative `o − 1`). -/
theorem kelly_criterion_odd_below_one_returns_number :
    calculate_kelly_criterion 0.5 0.5 1 = .ok (-3) := by
  have hc : ¬ ((0.5 : ℝ) * 0.5 - 1) / (0.5 - 1) ≤ 0 := by norm_num
  simp [calculate_kelly_criterion, hc]
  norm_num

/-- C2 amended: the Kelly computation performs no odd validation.  At
`o = 1` the unguarded division by `o − 1` raises `ZeroDivisionError` (not
an `InvalidOdd` error, which does not exist in the code); for every other
`o ≠ 0` — including invalid odds `o < 1` — it returns a number. -/
theorem kelly_criterion_no_odd_validation :
    ∀ p o f : ℝ,
      (o = 1 → calculate_kelly_criterion p o f = .error .zeroDivisionError)
      ∧ (o ≠ 0 → o ≠ 1 → ∃ q : ℝ, calculate_kelly_criterion p o f = .ok q) := by
  intro p o f
  constructor
  · rintro rfl
    norm_num [calculate_kelly_criterion]
  · intro h0 h1
    have h1' : o - 1 ≠ 0 := sub_ne_zero.mpr h1
    by_cases hc : (p * o - 1) / (o - 1) ≤ 0
    · exact ⟨0, by simp [calculate_kelly_criterion, h0, h1', hc]⟩
    · exact ⟨(p * o - 1) / (o - 1) / (o - 1) * f,
        by simp [calculate_kelly_criterion, h0, h1', hc]⟩

/-- Witness for C2's amended statement: `o = 1` raises, `o = 0.5` returns a
number. -/
theorem kelly_criterion_no_odd_validation_witness :
    calculate_kelly_criterion 0.5 1 1 = .error .zeroDivisionError
    ∧ ∃ q : ℝ, calculate_kelly_criterion 0.5 0.5 1 = .ok q :=
  ⟨(kelly_criterion_no_odd_validation 0.5 1 1).1 rfl,
   (kelly_criterion_no_odd_validation 0.5 0.5 1).2 (by norm_num) (by norm_num)⟩

/-- C8 counterexample: the Poisson-mode builder invoked with the negative
rate `λ_h = −1` does not fail — it produces a grid; its `(0, 0)` cell is
the value of the pmf product there (in the running program scipy yields
NaN cells for a negative rate, likewise a returned float array and not an
`InvalidInput` failure). -/
theorem poisson_builder_negative_rate_produces_grid :
    calculate_poisson_probabilities (-1) 1 5 0 0 = Real.exp 1 * Real.exp (-1) := by
  unfold calculate_poisson_probabilities
  rw [poisson_pmf_zero, poisson_pmf_zero]
  norm_num

/-- C8 amended: the score-matrix builders perform no input validation — on
a negative home rate they still build the full grid (no `InvalidInput`
error exists in the code): every Poisson-mode cell is the pmf product and
every Dixon-Coles-mode cell the normalized `dc_prob` value. -/
theorem builders_no_validation_on_negative_rates :
    ∀ (lh la rho : ℝ) (K : ℕ), lh < 0 →
      (∀ i j : ℕ, calculate_poisson_probabilities lh la K i j
          = poisson_pmf i lh * poisson_pmf j la)
      ∧ calculate_poisson_probabilities lh la K 0 0
          = Real.exp (-lh) * Real.exp (-la)
      ∧ (∀ i j : ℕ, calculate_dixon_coles_matrix lh la K rho i j
          = dc_prob lh la rho i j /
              gridSum K (fun a b => dc_prob lh la rho a b)) := by
  intro lh la rho K hneg
  refine ⟨fun i j => rfl, ?_, fun i j => rfl⟩
  unfold calculate_poisson_probabilities
  rw [poisson_pmf_zero, poisson_pmf_zero]

/-- Witness for C8's amended statement: instantiated at `λ_h = −1`,
`λ_a = 1`, `K = 5`, `ρ = −0.1`. -/
theorem builders_no_validation_on_negative_rates_witness :
    (-1 : ℝ) < 0 ∧
      ((∀ i j : ℕ, calculate_poisson_probabilities (-1) 1 5 i j
          = poisson_pmf i (-1) * poisson_pmf j 1)
      ∧ calculate_poisson_probabilities (-1) 1 5 0 0
          = Real.exp (-(-1)) * Real.exp (-1)
      ∧ (∀ i j : ℕ, calculate_dixon_coles_matrix (-1) 1 5 (-0.1) i j
          = dc_prob (-1) 1 (-0.1) i j /
              gridSum 5 (fun a b => dc_prob (-1) 1 (-0.1) a b))) :=
  ⟨by norm_num, builders_no_validation_on_negative_rates (-1) 1 (-0.1) 5 (by norm_num)⟩

/-- C9: for `p ∈ [0,1]`, `o > 1`, fraction in `(0,1]`, the Kelly
computation returns a number `≥ 0`, strictly positive exactly when the
expected value `p·o` is `> 1` (a stake is recommended iff the bet has
value). -/
theorem kelly_positive_iff_value_bet :
    ∀ p o f : ℝ, 0 ≤ p → p ≤ 1 → 1 < o → 0 < f → f ≤ 1 →
      ∃ q : ℝ, calculate_kelly_criterion p o f = .ok q ∧ 0 ≤ q ∧
        (0 < q ↔ 1 < calculate_expected_value p o) := by
  intro p o f hp hp1 ho hf hf1
  have h0 : o ≠ 0 := by intro h; rw [h] at ho; linarith
  have hopos : 0 < o - 1 := by linarith
  have h1 : o - 1 ≠ 0 := ne_of_gt hopos
  by_cases hc : (p * o - 1) / (o - 1) ≤ 0
  · have hle : p * o - 1 ≤ 0 := by
      by_contra h
      push_neg at h
      have : 0 < (p * o - 1) / (o - 1) := div_pos (by linarith) hopos
      linarith
    refine ⟨0, by simp [calculate_kelly_criterion, h0, h1, hc], le_refl 0, ?_⟩
    constructor
    · intro h; exact absurd h (lt_irrefl 0)
    · intro h
      have : 1 < p * o := h
      linarith
  · push_neg at hc
    have hedge : 0 < p * o - 1 := by
      have h2 : p * o - 1 = (p * o - 1) / (o - 1) * (o - 1) :=
        (div_mul_cancel₀ _ h1).symm
      nlinarith [mul_pos hc hopos]
    refine ⟨(p * o - 1) / (o - 1) / (o - 1) * f,
      by simp [calculate_kelly_criterion, h0, h1, not_le.mpr hc], ?_, ?_⟩
    · have : 0 < (p * o - 1) / (o - 1) / (o - 1) * f :=
        mul_pos (div_pos hc hopos) hf
      linarith
    · constructor
      · intro _
        show 1 < p * o
        linarith
      · intro _
        exact mul_pos (div_pos hc hopos) hf

/-- Witness for C9: instantiated at `p = 0.6`, `o = 2`, `f = 1`. -/
theorem kelly_positive_iff_value_bet_witness :
    (0 : ℝ) ≤ 0.6 ∧
      ∃ q : ℝ, calculate_kelly_criterion 0.6 2 1 = .ok q ∧ 0 ≤ q ∧
        (0 < q ↔ 1 < calculate_expected_value 0.6 2) :=
  ⟨by norm_num,
   kelly_positive_iff_value_bet 0.6 2 1 (by norm_num) (by norm_num)
     (by norm_num) (by norm_num) (by norm_num)⟩

end
